import Mathlib

/-!
# Circuit builder compilation: a shallow embedding

This file embeds the circuit-building core of `plonk/circuit_builder.rs`
(the `CircuitBuilder` state machine and the compilation pipeline `tomove`)
and proves the specified properties about it.

Modelling conventions:
* Rust `usize` values are `Nat`; panics (`assert!`, `todo!`, `.unwrap()`,
  `.expect(..)`) are modelled by returning `none` from the enclosing
  operation.
* `HashMap` caches are modelled as association lists with first-match
  lookup (`assocLookup`); `HashSet`s are modelled as lists in an
  arbitrary iteration order, and set-equality of two iteration orders is
  a `List.Perm` hypothesis.
* External collaborators that the source only calls (field arithmetic,
  FFT, the polynomial-commitment primitive, the hash, `num_partial_products`,
  `FriParams::total_arities`) are passed in as explicit function
  parameters, since the spec places them out of scope.
-/

/-- `Target`: an opaque, process-local integer identifier
(`iop/target.rs`, used as `Target(index)` by `add_target`). -/
structure Target where
  index : Nat
deriving DecidableEq, Repr

/-- `CopyConstraint`: an unordered pair of `Target`s asserted equal, plus the
debug-context path active when it was declared (`plonk/copy_constraint.rs`);
the path is modelled as the open stack of scope names. -/
structure CopyConstraint where
  pair : Target × Target
  name : List String
deriving DecidableEq

/-- The FRI configuration fields read by this core
(`fri::FriConfig`; `proof_of_work_bits` is a `u32` cast to `usize`). -/
structure FriConfig where
  rate_bits : Nat
  cap_height : Nat
  proof_of_work_bits : Nat
  num_query_rounds : Nat
deriving DecidableEq, Repr

/-- The `CircuitConfig` fields read by this core
(`plonk/circuit_data.rs`). -/
structure CircuitConfig where
  num_wires : Nat
  num_routed_wires : Nat
  security_bits : Nat
  zero_knowledge : Bool
  max_quotient_degree_factor : Nat
  fri_config : FriConfig
deriving DecidableEq, Repr

/-- First-match association-list lookup, the functional view of
`HashMap::get`. -/
def assocLookup {α β : Type} [DecidableEq α] (k : α) : List (α × β) → Option β
  | [] => none
  | (a, b) :: rest => if a = k then some b else assocLookup k rest

/-- The `CircuitBuilder` state (`plonk/circuit_builder.rs`, lines 52-76).
The element types of operations (`OperationRef`), generators
(`Box<dyn WitnessGenerator>`) and marked targets (`MarkedTargets`) are
opaque to every claim proved here, so the state is polymorphic in them
(`Op`, `Gen`, `Mk`); `F` is the base field. The `ContextTree` is modelled
by its open stack of scope names (`context_log.open_stack()` is the only
observation the embedded operations make of it). -/
structure CircuitBuilder (F Op Gen Mk : Type) where
  config : CircuitConfig
  public_inputs : List Target
  target_index : Nat
  copy_constraints : List CopyConstraint
  context_log : List String
  marked_targets : List Mk
  operations : List Op
  generators : List Gen
  constants_to_targets : List (F × Target)
  targets_to_constants : List (Target × F)

variable {F Op Gen Mk : Type}

/-- `check_config` (lines 96-117): the conjectured FRI security is
`min(F::Extension::order().bits(), num_query_rounds * rate_bits +
proof_of_work_bits)` and must reach `security_bits`. The extension field's
order bit-length is external (field arithmetic is out of scope), so it is
the parameter `fri_field_bits`. Returns the truth of the `assert!`ed
condition. -/
def CircuitBuilder.check_config (fri_field_bits : Nat) (config : CircuitConfig) : Bool :=
  let fri_query_security_bits :=
    config.fri_config.num_query_rounds * config.fri_config.rate_bits +
      config.fri_config.proof_of_work_bits
  let fri_security_bits := min fri_field_bits fri_query_security_bits
  decide (config.security_bits ≤ fri_security_bits)

/-- The freshly initialised builder record built by `CircuitBuilder::new`
(lines 80-91): every collection empty, `target_index = 0`. -/
def CircuitBuilder.empty (F Op Gen Mk : Type) (config : CircuitConfig) :
    CircuitBuilder F Op Gen Mk :=
  { config := config
    public_inputs := []
    target_index := 0
    copy_constraints := []
    context_log := []
    marked_targets := []
    operations := []
    generators := []
    constants_to_targets := []
    targets_to_constants := [] }

/-- `CircuitBuilder::new` (lines 79-94): initialise the state, then run
`check_config`, whose failing `assert!` panics — modelled as `none`. -/
def CircuitBuilder.new (F Op Gen Mk : Type) (fri_field_bits : Nat)
    (config : CircuitConfig) : Option (CircuitBuilder F Op Gen Mk) :=
  if CircuitBuilder.check_config fri_field_bits config then
    some (CircuitBuilder.empty F Op Gen Mk config)
  else
    none

/-- `add_target` (lines 133-137): return `Target(target_index)` and bump
the counter. -/
def CircuitBuilder.add_target (b : CircuitBuilder F Op Gen Mk) :
    Target × CircuitBuilder F Op Gen Mk :=
  (Target.mk b.target_index, { b with target_index := b.target_index + 1 })

/-- `add_targets` (lines 139-141): `n` sequential `add_target` calls,
collecting the results in call order. -/
def CircuitBuilder.add_targets (b : CircuitBuilder F Op Gen Mk) :
    Nat → List Target × CircuitBuilder F Op Gen Mk
  | 0 => ([], b)
  | n + 1 =>
    let p := b.add_target
    let q := p.2.add_targets n
    (p.1 :: q.1, q.2)

/-- `register_public_input` (lines 120-122). -/
def CircuitBuilder.register_public_input (b : CircuitBuilder F Op Gen Mk)
    (target : Target) : CircuitBuilder F Op Gen Mk :=
  { b with public_inputs := b.public_inputs ++ [target] }

/-- `connect` (lines 227-230): push one `CopyConstraint` made of the pair
and the currently open debug-context stack. -/
def CircuitBuilder.connect (b : CircuitBuilder F Op Gen Mk) (x y : Target) :
    CircuitBuilder F Op Gen Mk :=
  { b with copy_constraints :=
      b.copy_constraints ++ [CopyConstraint.mk (x, y) b.context_log] }

/-- `constant` (lines 279-294). Modelled from the spec: the body in `src`
is a `todo!()` stub; section 9 of the spec directs that the fully-written
reference body kept in its comments is the specification, and the
`constant_gate_instance` slot bookkeeping it calls is external to `src`.
Following that body: hit the `constants_to_targets` cache if possible,
otherwise allocate a fresh target and record it in both cache directions
(the reserved constant-gate slot carries no information observable by
`target_as_constant` and is omitted). -/
def CircuitBuilder.constant [DecidableEq F] (b : CircuitBuilder F Op Gen Mk)
    (c : F) : Target × CircuitBuilder F Op Gen Mk :=
  match assocLookup c b.constants_to_targets with
  | some target => (target, b)
  | none =>
    let p := b.add_target
    (p.1,
      { p.2 with
        constants_to_targets := (c, p.1) :: p.2.constants_to_targets
        targets_to_constants := (p.1, c) :: p.2.targets_to_constants })

/-- `target_as_constant` (lines 313-317): look the target up in the
reverse cache. -/
def CircuitBuilder.target_as_constant [DecidableEq F]
    (b : CircuitBuilder F Op Gen Mk) (target : Target) : Option F :=
  assocLookup target b.targets_to_constants

/-- The two constant caches agree: whenever the forward cache maps a value
to a target, the reverse cache maps that target back to the value. This
holds for every builder reachable through the API (both caches are only
ever extended in lockstep by `constant`). -/
def CacheCoherent [DecidableEq F] (b : CircuitBuilder F Op Gen Mk) : Prop :=
  ∀ c t, assocLookup c b.constants_to_targets = some t →
    assocLookup t b.targets_to_constants = some c

/-- A gate type as seen by the compilation pipeline (`GateRef`): its stable
identifier string `id()` and the integer attributes the pipeline reads. -/
structure GateRef where
  id : String
  num_constraints : Nat
  degree : Nat
  num_constants : Nat
deriving DecidableEq

/-- The sort key used for gates: the gate identifier string, ordered
lexicographically (compared through its character data, which carries the
same order as `String`). -/
def gateIdLe (a b : GateRef) : Prop := a.id.data ≤ b.id.data

instance : DecidableRel gateIdLe :=
  fun a b => (inferInstance : Decidable (a.id.data ≤ b.id.data))

instance : IsTotal GateRef gateIdLe :=
  ⟨fun a b => le_total a.id.data b.id.data⟩

instance : IsTrans GateRef gateIdLe :=
  ⟨fun _ _ _ hab hbc => le_trans hab hbc⟩

/-- `gates.sort_unstable_by_key(|gate| gate.0.id())` (lines 495-498): sort
the gate list by the stable identifier string. -/
def sortGatesById (gates : List GateRef) : List GateRef :=
  List.insertionSort gateIdLe gates

/-- Modelled from the spec: `Tree::from_gates` and the code assignment are
in `gates/gate_tree.rs`, outside `src`. Per spec section 4.2 the registry
produces a deterministic ordering sorted by the stable gate identifier
string before encoding, then assigns each gate a code from a tree that is
a function of that ordering alone; the code is abstracted as the gate's
position in the sorted order. -/
def gateTreeEncoding (gates : List GateRef) : List (Nat × GateRef) :=
  (sortGatesById gates).enum

/-- `min_by_key` over a list of candidate factors, with Rust's documented
tie-breaking for `Iterator::min_by_key`: if several elements are equally
minimum, the first element is returned. -/
def min_by_key (f : Nat → Nat) : List Nat → Option Nat
  | [] => none
  | x :: xs =>
    match min_by_key f xs with
    | none => some x
    | some b => if f b < f x then some b else some x

/-- The candidate range `min_quotient_degree_factor..=max_quotient_degree_factor`
as the ascending list `[lo, lo+1, ..., hi]` (empty when `hi < lo`). -/
def quotientRange (lo hi : Nat) : List Nat :=
  List.range' lo (hi + 1 - lo)

/-- Quotient-degree-factor selection (lines 424-428): minimise
`num_partial_products(num_routed_wires, q).0 + q` over
`(max_filtered_constraint_degree - 1)..=min(config.max_quotient_degree_factor, 1 << rate_bits)`.
`num_partial_products` is external (`util/partial_products.rs`), so its
first component is the parameter `npp`; the `.unwrap()` on an empty range
panics, modelled as `none`. -/
def select_quotient_degree_factor (npp : Nat → Nat → Nat)
    (num_routed_wires max_filtered_constraint_degree
      max_quotient_degree_factor rate_bits : Nat) : Option Nat :=
  let lo := max_filtered_constraint_degree - 1
  let hi := min max_quotient_degree_factor (2 ^ rate_bits)
  min_by_key (fun q => npp num_routed_wires q + q) (quotientRange lo hi)

/-- One row of the gate-instance list, abstracted to what padding
observes: a user-inserted instance (with an opaque payload), a blinding
row, or a `NoopGate` filler row. -/
inductive GateRow where
  | user : Nat → GateRow
  | blinding : GateRow
  | noop : GateRow
deriving DecidableEq, Repr

/-- The exponent of the padded instance count: the least `k` with
`n ≤ 2 ^ k` (searched over `0..n`, which always contains it since
`n < 2 ^ n`). -/
def padExp (n : Nat) : Nat :=
  ((List.range (n + 1)).find? (fun k => decide (n ≤ 2 ^ k))).getD 0

/-- The padded instance count: the least power of two that is at least
`n` (and at least `1`, matching the loop `while !len.is_power_of_two()`
which also pads an empty list to one row, since `0` is not a power of
two). -/
def paddedDegree (n : Nat) : Nat := 2 ^ padExp n

/-- `log2_strict` (`plonky2_util`, applied to the padded degree at line
411): the exact base-2 logarithm, panicking — `none` — unless the input
is exactly a power of two. -/
def log2_strict (n : Nat) : Option Nat :=
  (List.range (n + 1)).find? (fun k => decide (2 ^ k = n))

/-- `blind_and_pad`. Modelled from the spec: the method itself is outside
`src` (only its call at line 408 is); per spec section 4.3 it appends the
blinding rows for zero-knowledge hiding, then appends no-op filler
instances until the instance count is a power of two. -/
def blind_and_pad (rows blinding : List GateRow) : List GateRow :=
  let l := rows ++ blinding
  l ++ List.replicate (paddedDegree l.length - l.length) GateRow.noop

/-- The external collaborators called by the compilation pipeline, all
out of scope per spec section 1 and supplied as deterministic functions:
`num_partial_products` (first component), `fri_params` (opaque encoding)
and its `total_arities`, the two scalar outputs of `Tree::from_gates`
(taken on the deterministically sorted gate list), `get_unique_coset_shifts`,
`constant_polys`, `sigma_vecs`, the polynomial-batch commitment cap
(of the concatenated values, rate bits and cap height), and the hash. -/
structure ExternalFns where
  npp : Nat → Nat → Nat
  fri_params : Nat → Nat
  total_arities : Nat → Nat
  tree_max_filtered_degree : List GateRef → Nat
  tree_num_constants : List GateRef → Nat
  coset_shifts : Nat → Nat → List Nat
  constant_polys : List (Nat × GateRef) → Nat → List (List Nat)
  sigma_polys : List Nat → Nat → List (List Nat)
  commit_cap : List (List Nat) → Nat → Nat → List Nat
  hash : List Nat → Nat

/-- `CommonCircuitData` (the fields assembled at lines 516-528), with the
externally produced values (`fri_params`, commitments, hash) carried as
the opaque data the external functions returned. -/
structure CommonCircuitData where
  config : CircuitConfig
  fri_params : Nat
  degree_bits : Nat
  gates : List (Nat × GateRef)
  quotient_degree_factor : Nat
  num_gate_constraints : Nat
  num_constants : Nat
  num_virtual_targets : Nat
  k_is : List Nat
  num_partial_products : Nat
  circuit_digest : Nat
deriving DecidableEq

/-- The compilation pipeline `tomove` (lines 390-536), restricted to the
protocol-relevant outputs: the `CommonCircuitData` and the verifier's
commitment cap. Modelled from the spec where the pipeline calls members
missing from `src` (`blind_and_pad`, `fri_params`, `Tree::from_gates`,
the commitment — see `blind_and_pad`, `gateTreeEncoding`, `ExternalFns`).
Inputs: the gate-instance rows accumulated before `build` plus the
blinding rows, and the distinct gate types `gates_iter` in the arbitrary
iteration order of the backing `HashSet`. Each `assert!` / `.unwrap()` /
`.expect(..)` on the way is `none`. -/
def buildCircuit (ext : ExternalFns) (cfg : CircuitConfig)
    (rows blinding : List GateRow) (gates_iter : List GateRef)
    (num_virtual_targets : Nat) : Option (CommonCircuitData × List Nat) :=
  let degree := (blind_and_pad rows blinding).length
  match log2_strict degree with
  | none => none
  | some degree_bits =>
  if ext.total_arities degree_bits ≤ degree_bits then
    let sorted := sortGatesById gates_iter
    let enc := gateTreeEncoding gates_iter
    let mfd := ext.tree_max_filtered_degree sorted
    let num_constants := ext.tree_num_constants sorted
    match select_quotient_degree_factor ext.npp cfg.num_routed_wires mfd
        cfg.max_quotient_degree_factor cfg.fri_config.rate_bits with
    | none => none
    | some qdf =>
      let k_is := ext.coset_shifts degree cfg.num_routed_wires
      let cvecs := ext.constant_polys enc num_constants
      let svecs := ext.sigma_polys k_is degree
      let cap := ext.commit_cap (cvecs ++ svecs) cfg.fri_config.rate_bits
        cfg.fri_config.cap_height
      match (sorted.map GateRef.num_constraints).max? with
      | none => none
      | some num_gate_constraints =>
        some ({ config := cfg
                fri_params := ext.fri_params degree_bits
                degree_bits := degree_bits
                gates := enc
                quotient_degree_factor := qdf
                num_gate_constraints := num_gate_constraints
                num_constants := num_constants
                num_virtual_targets := num_virtual_targets
                k_is := k_is
                num_partial_products := ext.npp cfg.num_routed_wires qdf
                circuit_digest := ext.hash cap }, cap)
  else none

/-- A configuration meeting the security target through its query
parameters: `28 * 3 + 16 = 100 ≥ 100`. -/
def cfgGood : CircuitConfig :=
  { num_wires := 4
    num_routed_wires := 4
    security_bits := 100
    zero_knowledge := false
    max_quotient_degree_factor := 8
    fri_config :=
      { rate_bits := 3, cap_height := 1, proof_of_work_bits := 16,
        num_query_rounds := 28 } }

/-- A configuration whose query parameters fall short of the target:
`10 * 3 + 16 = 46 < 100`. -/
def cfgBad : CircuitConfig :=
  { cfgGood with
    fri_config :=
      { rate_bits := 3, cap_height := 1, proof_of_work_bits := 16,
        num_query_rounds := 10 } }

/-- A sample instantiation of the external collaborators, used to
evaluate the pipeline on concrete inputs. -/
def extSample : ExternalFns :=
  { npp := fun w q => w / q
    fri_params := fun db => db
    total_arities := fun _ => 0
    tree_max_filtered_degree := fun gs => gs.length + 2
    tree_num_constants := fun gs => gs.length
    coset_shifts := fun _ w => List.range w
    constant_polys := fun e n => [[e.length, n]]
    sigma_polys := fun ks d => [ks ++ [d]]
    commit_cap := fun vs r c => [vs.length, r, c]
    hash := fun l => l.length }

/-- A variant whose FRI reduction schedule always exceeds the degree
bits by one. -/
def extArity : ExternalFns :=
  { extSample with total_arities := fun db => db + 1 }

/-- Two sample gate types with distinct identifier strings. -/
def gateArith : GateRef :=
  { id := "ArithmeticGate", num_constraints := 2, degree := 3, num_constants := 1 }

/-- See `gateArith`. -/
def gateConst : GateRef :=
  { id := "ConstantGate", num_constraints := 1, degree := 1, num_constants := 4 }

/-- One iteration order of the backing gate `HashSet`. -/
def gatesOrderOne : List GateRef := [gateArith, gateConst]

/-- The other iteration order of the same set. -/
def gatesOrderTwo : List GateRef := [gateConst, gateArith]

/-- A freshly constructed builder over `F = Nat` with opaque operation,
generator and mark types instantiated at `Unit`. -/
def sampleBuilder : CircuitBuilder Nat Unit Unit Unit :=
  CircuitBuilder.empty Nat Unit Unit Unit cfgGood

/-- Closed form of `add_targets`: the `i`-th of `n` sequential
`add_target` calls returns `Target (target_index + i)`, and the net state
change is `target_index + n`. -/
theorem add_targets_spec (n : Nat) (b : CircuitBuilder F Op Gen Mk) :
    (b.add_targets n).1 =
      (List.range n).map (fun k => Target.mk (b.target_index + k)) ∧
    (b.add_targets n).2 = { b with target_index := b.target_index + n } := by
  induction n generalizing b with
  | zero => exact ⟨rfl, rfl⟩
  | succ n ih =>
    obtain ⟨h1, h2⟩ := ih (b.add_target).2
    constructor
    · show (b.add_target).1 :: ((b.add_target).2.add_targets n).1 = _
      rw [h1, List.range_succ_eq_map]
      simp only [CircuitBuilder.add_target, List.map_cons, List.map_map,
        List.map_cons]
      refine congrArg₂ _ (by simp) ?_
      refine List.map_congr_left fun k _ => ?_
      simp [Function.comp]
      omega
    · show ((b.add_target).2.add_targets n).2 = _
      rw [h2]
      simp only [CircuitBuilder.add_target]
      congr 1
      omega

/-- `Target.mk` is injective. -/
theorem target_mk_injective : Function.Injective Target.mk := by
  intro a b h
  cases h
  rfl

/-- C8: `add_target()` always returns a fresh, never-reused identifier:
on a freshly constructed builder (`target_index = 0`), the `i`-th call
returns `Target(i)` (so `n` sequential calls return
`[Target 0, …, Target (n-1)]`, pairwise distinct), allocation never
fails, and a single call's only effect on the state is incrementing
`target_index`. -/
theorem add_target_fresh (b : CircuitBuilder F Op Gen Mk) (n : Nat)
    (h0 : b.target_index = 0) :
    (b.add_targets n).1 = (List.range n).map Target.mk ∧
    (b.add_targets n).1.Nodup ∧
    (b.add_target).1 = Target.mk b.target_index ∧
    (b.add_target).2 = { b with target_index := b.target_index + 1 } := by
  obtain ⟨h1, _⟩ := add_targets_spec n b
  have hl : (b.add_targets n).1 = (List.range n).map Target.mk := by
    rw [h1, h0]
    simp
  refine ⟨hl, ?_, rfl, rfl⟩
  rw [hl]
  exact (List.nodup_range n).map target_mk_injective

/-- Witness for C8 on a concrete builder and three calls. -/
theorem add_target_fresh_witness :
    sampleBuilder.target_index = 0 ∧
    ((sampleBuilder.add_targets 3).1 = (List.range 3).map Target.mk ∧
      (sampleBuilder.add_targets 3).1.Nodup ∧
      (sampleBuilder.add_target).1 = Target.mk sampleBuilder.target_index ∧
      (sampleBuilder.add_target).2 =
        { sampleBuilder with target_index := sampleBuilder.target_index + 1 }) :=
  ⟨rfl, add_target_fresh sampleBuilder 3 rfl⟩

/-- C10: `connect x y` appends exactly one `CopyConstraint` holding the
pair `(x, y)` (tagged with the open debug-context path) to the
copy-constraint list, and leaves every other builder field unchanged; in
particular it allocates no targets and adds no generators. -/
theorem connect_frame (b : CircuitBuilder F Op Gen Mk) (x y : Target) :
    (b.connect x y).copy_constraints =
      b.copy_constraints ++ [CopyConstraint.mk (x, y) b.context_log] ∧
    (b.connect x y).config = b.config ∧
    (b.connect x y).public_inputs = b.public_inputs ∧
    (b.connect x y).target_index = b.target_index ∧
    (b.connect x y).context_log = b.context_log ∧
    (b.connect x y).marked_targets = b.marked_targets ∧
    (b.connect x y).operations = b.operations ∧
    (b.connect x y).generators = b.generators ∧
    (b.connect x y).constants_to_targets = b.constants_to_targets ∧
    (b.connect x y).targets_to_constants = b.targets_to_constants :=
  ⟨rfl, rfl, rfl, rfl, rfl, rfl, rfl, rfl, rfl, rfl⟩

/-- C1: constructing a builder fails (the `check_config` `assert!` fires)
whenever `num_query_rounds * rate_bits + proof_of_work_bits <
security_bits`, before any gate, target or constraint can be added (no
builder state is produced at all); and when the query parameters meet the
target and the (extension) field is large enough, construction succeeds
with the fresh empty state. -/
theorem new_security_gate (F Op Gen Mk : Type) (fri_field_bits : Nat)
    (cfg : CircuitConfig) :
    (cfg.fri_config.num_query_rounds * cfg.fri_config.rate_bits +
        cfg.fri_config.proof_of_work_bits < cfg.security_bits →
      CircuitBuilder.new F Op Gen Mk fri_field_bits cfg = none) ∧
    (cfg.security_bits ≤ cfg.fri_config.num_query_rounds * cfg.fri_config.rate_bits +
        cfg.fri_config.proof_of_work_bits →
      cfg.security_bits ≤ fri_field_bits →
      CircuitBuilder.new F Op Gen Mk fri_field_bits cfg =
        some (CircuitBuilder.empty F Op Gen Mk cfg)) := by
  constructor
  · intro h
    have hc : ¬ (cfg.security_bits ≤ min fri_field_bits
        (cfg.fri_config.num_query_rounds * cfg.fri_config.rate_bits +
          cfg.fri_config.proof_of_work_bits)) := by omega
    simp [CircuitBuilder.new, CircuitBuilder.check_config, hc]
  · intro h1 h2
    have hc : cfg.security_bits ≤ min fri_field_bits
        (cfg.fri_config.num_query_rounds * cfg.fri_config.rate_bits +
          cfg.fri_config.proof_of_work_bits) := by omega
    simp [CircuitBuilder.new, CircuitBuilder.check_config, hc]

/-- Witness for C1: a config short of the target is rejected, a config
meeting it (with a 128-bit field) is accepted. -/
theorem new_security_gate_witness :
    (cfgBad.fri_config.num_query_rounds * cfgBad.fri_config.rate_bits +
        cfgBad.fri_config.proof_of_work_bits < cfgBad.security_bits ∧
      CircuitBuilder.new Nat Unit Unit Unit 128 cfgBad = none) ∧
    (cfgGood.security_bits ≤
        cfgGood.fri_config.num_query_rounds * cfgGood.fri_config.rate_bits +
          cfgGood.fri_config.proof_of_work_bits ∧
      cfgGood.security_bits ≤ 128 ∧
      CircuitBuilder.new Nat Unit Unit Unit 128 cfgGood =
        some (CircuitBuilder.empty Nat Unit Unit Unit cfgGood)) :=
  ⟨⟨by decide, (new_security_gate Nat Unit Unit Unit 128 cfgBad).1 (by decide)⟩,
    ⟨by decide, by decide,
      (new_security_gate Nat Unit Unit Unit 128 cfgGood).2 (by decide) (by decide)⟩⟩

/-- C9: construction succeeds exactly when
`min(field-order bits, num_query_rounds * rate_bits + proof_of_work_bits)`
reaches `security_bits`; in particular it fails whenever the extension
field's order has fewer than `security_bits` bits, regardless of the
query parameters. -/
theorem new_enforces_field_bits (F Op Gen Mk : Type) (fri_field_bits : Nat)
    (cfg : CircuitConfig) :
    ((∃ b, CircuitBuilder.new F Op Gen Mk fri_field_bits cfg = some b) ↔
      cfg.security_bits ≤ min fri_field_bits
        (cfg.fri_config.num_query_rounds * cfg.fri_config.rate_bits +
          cfg.fri_config.proof_of_work_bits)) ∧
    (fri_field_bits < cfg.security_bits →
      CircuitBuilder.new F Op Gen Mk fri_field_bits cfg = none) := by
  constructor
  · constructor
    · intro ⟨b, hb⟩
      by_contra hc
      simp [CircuitBuilder.new, CircuitBuilder.check_config, hc] at hb
    · intro hc
      refine ⟨CircuitBuilder.empty F Op Gen Mk cfg, ?_⟩
      simp [CircuitBuilder.new, CircuitBuilder.check_config, hc]
  · intro h
    have hc : ¬ (cfg.security_bits ≤ min fri_field_bits
        (cfg.fri_config.num_query_rounds * cfg.fri_config.rate_bits +
          cfg.fri_config.proof_of_work_bits)) := by omega
    simp [CircuitBuilder.new, CircuitBuilder.check_config, hc]

/-- Witness for C9: a 40-bit field with a 100-bit target is rejected even
though the query parameters provide 100 bits. -/
theorem new_enforces_field_bits_witness :
    40 < cfgGood.security_bits ∧
    cfgGood.security_bits ≤
      cfgGood.fri_config.num_query_rounds * cfgGood.fri_config.rate_bits +
        cfgGood.fri_config.proof_of_work_bits ∧
    CircuitBuilder.new Nat Unit Unit Unit 40 cfgGood = none :=
  ⟨by decide, by decide,
    (new_enforces_field_bits Nat Unit Unit Unit 40 cfgGood).2 (by decide)⟩

/-- C3: `constant` is idempotent per value — a second call with the same
field value returns the same `Target` — and `target_as_constant` recovers
the value exactly, for every builder whose two caches agree (an invariant
of every reachable builder). -/
theorem constant_idempotent_recoverable [DecidableEq F]
    (b : CircuitBuilder F Op Gen Mk) (hco : CacheCoherent b) (c : F) :
    ((b.constant c).2.constant c).1 = (b.constant c).1 ∧
    (b.constant c).2.target_as_constant (b.constant c).1 = some c := by
  cases h : assocLookup c b.constants_to_targets with
  | some t =>
    constructor
    · simp [CircuitBuilder.constant, h]
    · simp only [CircuitBuilder.constant, h]
      exact hco c t h
  | none =>
    constructor
    · simp [CircuitBuilder.constant, h, CircuitBuilder.add_target, assocLookup]
    · simp [CircuitBuilder.constant, h, CircuitBuilder.add_target,
        CircuitBuilder.target_as_constant, assocLookup]

/-- Witness for C3 on a fresh builder over `F = Nat` and the value `5`. -/
theorem constant_idempotent_recoverable_witness :
    CacheCoherent sampleBuilder ∧
    (((sampleBuilder.constant 5).2.constant 5).1 = (sampleBuilder.constant 5).1 ∧
      (sampleBuilder.constant 5).2.target_as_constant
        (sampleBuilder.constant 5).1 = some 5) := by
  have hco : CacheCoherent sampleBuilder := by
    intro c t h
    simp [sampleBuilder, CircuitBuilder.empty, assocLookup] at h
  exact ⟨hco, constant_idempotent_recoverable sampleBuilder hco 5⟩

/-- `find?` over an ascending `range'` returns the first element whose
index satisfies the test. -/
theorem find?_range'_some (p : Nat → Bool) :
    ∀ (n s k : Nat), s ≤ k → k < s + n →
      (∀ j, s ≤ j → j < k → p j = false) → p k = true →
      (List.range' s n).find? p = some k := by
  intro n
  induction n with
  | zero =>
    intro s k hsk hk _ _
    omega
  | succ n ih =>
    intro s k hsk hk hbelow hp
    rw [List.range'_succ]
    rcases Nat.eq_or_lt_of_le hsk with heq | hlt
    · subst heq
      simp [List.find?, hp]
    · have hps : p s = false := hbelow s le_rfl hlt
      simp only [List.find?, hps]
      exact ih (s + 1) k hlt (by omega) (fun j h1 h2 => hbelow j (by omega) h2) hp

/-- `padExp n` is the least exponent `k` with `n ≤ 2 ^ k`. -/
theorem padExp_spec (n : Nat) :
    n ≤ 2 ^ padExp n ∧ ∀ j, n ≤ 2 ^ j → padExp n ≤ j := by
  have hex : ∃ k, n ≤ 2 ^ k := ⟨n, (Nat.lt_two_pow n).le⟩
  set k := Nat.find hex with hkdef
  have hpk : n ≤ 2 ^ k := Nat.find_spec hex
  have hmin : ∀ j, j < k → ¬ (n ≤ 2 ^ j) := fun j hj => Nat.find_min hex hj
  have hkn : k ≤ n := Nat.find_le (Nat.lt_two_pow n).le
  have hfind : (List.range (n + 1)).find? (fun j => decide (n ≤ 2 ^ j)) = some k := by
    rw [List.range_eq_range']
    exact find?_range'_some _ (n + 1) 0 k (Nat.zero_le k) (by omega)
      (fun j _ hj => decide_eq_false (hmin j hj)) (decide_eq_true hpk)
  have hpe : padExp n = k := by
    rw [padExp, hfind]
    rfl
  rw [hpe]
  exact ⟨hpk, fun j hj => Nat.find_le hj⟩

/-- `log2_strict` recovers the exponent of a power of two exactly. -/
theorem log2_strict_pow (k : Nat) : log2_strict (2 ^ k) = some k := by
  rw [log2_strict, List.range_eq_range']
  refine find?_range'_some _ (2 ^ k + 1) 0 k (Nat.zero_le k)
    (by have := Nat.lt_two_pow k; omega) (fun j _ hj => ?_) (by simp)
  have : 2 ^ j < 2 ^ k := Nat.pow_lt_pow_right (by omega) hj
  simp
  omega

/-- The padded row list has exactly `paddedDegree` rows. -/
theorem blind_and_pad_length (rows blinding : List GateRow) :
    (blind_and_pad rows blinding).length =
      paddedDegree (rows.length + blinding.length) := by
  have hle := (padExp_spec (rows.length + blinding.length)).1
  simp only [blind_and_pad, List.length_append, List.length_replicate,
    paddedDegree]
  omega

/-- C7: every compilation's degree — the row count after blinding and
padding — is a power of two, is at least the number of user gate
instances plus the blinding rows, and `log2_strict` (the `degree_bits`
computation) succeeds on it with the exact exponent. -/
theorem blind_and_pad_power_of_two (rows blinding : List GateRow) :
    ∃ k, (blind_and_pad rows blinding).length = 2 ^ k ∧
      rows.length + blinding.length ≤ (blind_and_pad rows blinding).length ∧
      log2_strict ((blind_and_pad rows blinding).length) = some k := by
  refine ⟨padExp (rows.length + blinding.length), ?_, ?_, ?_⟩
  · rw [blind_and_pad_length]
    rfl
  · rw [blind_and_pad_length]
    exact (padExp_spec (rows.length + blinding.length)).1
  · rw [blind_and_pad_length]
    exact log2_strict_pow _

/-- `min_by_key` fails only on the empty list. -/
theorem min_by_key_eq_none (f : Nat → Nat) :
    ∀ l : List Nat, min_by_key f l = none ↔ l = [] := by
  intro l
  cases l with
  | nil => simp [min_by_key]
  | cons x xs =>
    simp only [min_by_key]
    cases min_by_key f xs with
    | none => simp
    | some b =>
      by_cases h : f b < f x <;> simp [h]

/-- Unfolding `min_by_key` on a cons whose tail already has a minimum. -/
theorem min_by_key_cons_some (f : Nat → Nat) (x c : Nat) (xs : List Nat)
    (h : min_by_key f xs = some c) :
    min_by_key f (x :: xs) = if f c < f x then some c else some x := by
  simp only [min_by_key, h]

/-- Unfolding `min_by_key` on a cons with an empty tail result. -/
theorem min_by_key_cons_none (f : Nat → Nat) (x : Nat) (xs : List Nat)
    (h : min_by_key f xs = none) :
    min_by_key f (x :: xs) = some x := by
  simp only [min_by_key, h]

/-- The element `min_by_key` returns is a member of the list. -/
theorem min_by_key_mem (f : Nat → Nat) :
    ∀ (l : List Nat) (b : Nat), min_by_key f l = some b → b ∈ l := by
  intro l
  induction l with
  | nil => simp [min_by_key]
  | cons x xs ih =>
    intro b hb
    cases h : min_by_key f xs with
    | none =>
      rw [min_by_key_cons_none f x xs h] at hb
      cases hb
      exact List.mem_cons_self x xs
    | some c =>
      rw [min_by_key_cons_some f x c xs h] at hb
      by_cases hlt : f c < f x
      · rw [if_pos hlt] at hb
        cases hb
        exact List.mem_cons_of_mem x (ih _ h)
      · rw [if_neg hlt] at hb
        cases hb
        exact List.mem_cons_self x xs

/-- The element `min_by_key` returns has a minimal key. -/
theorem min_by_key_min (f : Nat → Nat) :
    ∀ (l : List Nat) (b : Nat), min_by_key f l = some b →
      ∀ x ∈ l, f b ≤ f x := by
  intro l
  induction l with
  | nil => simp [min_by_key]
  | cons x xs ih =>
    intro b hb y hy
    cases h : min_by_key f xs with
    | none =>
      rw [min_by_key_cons_none f x xs h] at hb
      cases hb
      have : xs = [] := (min_by_key_eq_none f xs).mp h
      subst this
      simp at hy
      simp [hy]
    | some c =>
      rw [min_by_key_cons_some f x c xs h] at hb
      rcases List.mem_cons.mp hy with hyx | hyxs
      · subst hyx
        by_cases hlt : f c < f y
        · rw [if_pos hlt] at hb
          cases hb
          exact hlt.le
        · rw [if_neg hlt] at hb
          cases hb
          exact le_rfl
      · by_cases hlt : f c < f x
        · rw [if_pos hlt] at hb
          cases hb
          exact ih b h y hyxs
        · rw [if_neg hlt] at hb
          cases hb
          exact le_trans (Nat.le_of_not_lt hlt) (ih c h y hyxs)

/-- On a strictly ascending list, the element `min_by_key` returns is the
smallest member achieving its key: Rust's `min_by_key` keeps the first of
equally minimal elements, and the candidate list is ascending. -/
theorem min_by_key_first (f : Nat → Nat) :
    ∀ (l : List Nat) (b : Nat), List.Sorted (· < ·) l →
      min_by_key f l = some b → ∀ x ∈ l, f x ≤ f b → b ≤ x := by
  intro l
  induction l with
  | nil => simp [min_by_key]
  | cons x xs ih =>
    intro b hsorted hb y hy hfy
    cases h : min_by_key f xs with
    | none =>
      rw [min_by_key_cons_none f x xs h] at hb
      cases hb
      have : xs = [] := (min_by_key_eq_none f xs).mp h
      subst this
      simp at hy
      simp [hy]
    | some c =>
      rw [min_by_key_cons_some f x c xs h] at hb
      rcases List.mem_cons.mp hy with hyx | hyxs
      · subst hyx
        by_cases hlt : f c < f y
        · rw [if_pos hlt] at hb
          cases hb
          exact absurd (lt_of_le_of_lt hfy hlt) (lt_irrefl _)
        · rw [if_neg hlt] at hb
          cases hb
          exact le_rfl
      · by_cases hlt : f c < f x
        · rw [if_pos hlt] at hb
          cases hb
          exact ih b hsorted.of_cons h y hyxs hfy
        · rw [if_neg hlt] at hb
          cases hb
          exact (List.rel_of_sorted_cons hsorted y hyxs).le

/-- The candidate range is strictly ascending. -/
theorem quotientRange_sorted (lo hi : Nat) :
    List.Sorted (· < ·) (quotientRange lo hi) := by
  rw [quotientRange]
  exact List.pairwise_lt_range' lo (hi + 1 - lo) 1 (by omega)

/-- Membership in the candidate range, assuming it is nonempty. -/
theorem mem_quotientRange (lo hi : Nat) (h : lo ≤ hi) (q : Nat) :
    q ∈ quotientRange lo hi ↔ lo ≤ q ∧ q ≤ hi := by
  rw [quotientRange, List.mem_range'_1]
  omega

/-- C4: the selected quotient-degree factor lies in
`[max_filtered_constraint_degree - 1, min(config.max_quotient_degree_factor, 2^rate_bits)]`,
minimises `num_partial_products(num_routed_wires, q) + q` over that
interval, and among tied minimisers the smallest `q` wins (Rust's
`min_by_key` keeps the first minimum of the ascending range). Stated for
every external cost function `npp`. -/
theorem quotient_degree_factor_optimal (npp : Nat → Nat → Nat)
    (num_routed_wires mfcd mqdf rate_bits : Nat)
    (h : mfcd - 1 ≤ min mqdf (2 ^ rate_bits)) :
    ∃ q, select_quotient_degree_factor npp num_routed_wires mfcd mqdf rate_bits =
        some q ∧
      mfcd - 1 ≤ q ∧ q ≤ min mqdf (2 ^ rate_bits) ∧
      (∀ q', mfcd - 1 ≤ q' → q' ≤ min mqdf (2 ^ rate_bits) →
        npp num_routed_wires q + q ≤ npp num_routed_wires q' + q') ∧
      (∀ q', mfcd - 1 ≤ q' → q' ≤ min mqdf (2 ^ rate_bits) →
        npp num_routed_wires q' + q' = npp num_routed_wires q + q → q ≤ q') := by
  set lo := mfcd - 1
  set hi := min mqdf (2 ^ rate_bits)
  set f := fun q => npp num_routed_wires q + q with hf
  have hne : quotientRange lo hi ≠ [] := by
    rw [quotientRange]
    have : hi + 1 - lo ≠ 0 := by omega
    simp [this]
  obtain ⟨q, hq⟩ : ∃ q, min_by_key f (quotientRange lo hi) = some q := by
    cases hsel : min_by_key f (quotientRange lo hi) with
    | none => exact absurd ((min_by_key_eq_none f _).mp hsel) hne
    | some q => exact ⟨q, rfl⟩
  have hmem := (mem_quotientRange lo hi h q).mp (min_by_key_mem f _ q hq)
  refine ⟨q, hq, hmem.1, hmem.2, ?_, ?_⟩
  · intro q' h1 h2
    exact min_by_key_min f _ q hq q' ((mem_quotientRange lo hi h q').mpr ⟨h1, h2⟩)
  · intro q' h1 h2 heq
    exact min_by_key_first f _ q (quotientRange_sorted lo hi) hq q'
      ((mem_quotientRange lo hi h q').mpr ⟨h1, h2⟩) heq.le

/-- Witness for C4 at `num_routed_wires = 20`,
`max_filtered_constraint_degree = 3`, `max_quotient_degree_factor = 8`,
`rate_bits = 3` and cost `w / q`. -/
theorem quotient_degree_factor_optimal_witness :
    3 - 1 ≤ min 8 (2 ^ 3) ∧
    ∃ q, select_quotient_degree_factor (fun w q => w / q) 20 3 8 3 = some q ∧
      3 - 1 ≤ q ∧ q ≤ min 8 (2 ^ 3) ∧
      (∀ q', 3 - 1 ≤ q' → q' ≤ min 8 (2 ^ 3) →
        20 / q + q ≤ 20 / q' + q') ∧
      (∀ q', 3 - 1 ≤ q' → q' ≤ min 8 (2 ^ 3) →
        20 / q' + q' = 20 / q + q → q ≤ q') :=
  ⟨by decide, quotient_degree_factor_optimal (fun w q => w / q) 20 3 8 3 (by decide)⟩

/-- Two sorted gate lists that hold the same gates, with pairwise
distinct identifier strings, are equal: the identifier is only a
preorder on all of `GateRef`, but it is antisymmetric on a list of
distinct identifiers. -/
theorem sorted_gates_unique :
    ∀ (l₁ l₂ : List GateRef), l₁.Perm l₂ → List.Sorted gateIdLe l₁ →
      List.Sorted gateIdLe l₂ → (l₁.map GateRef.id).Nodup → l₁ = l₂ := by
  intro l₁
  induction l₁ with
  | nil =>
    intro l₂ hp _ _ _
    exact (hp.symm.eq_nil).symm
  | cons a t₁ ih =>
    intro l₂ hp hs₁ hs₂ hnd
    cases l₂ with
    | nil => simp [hp.eq_nil] at hp ⊢
    | cons b t₂ =>
      have hab : a = b := by
        by_contra hne
        have hbmem : b ∈ a :: t₁ := hp.mem_iff.mpr (List.mem_cons_self b t₂)
        have hamem : a ∈ b :: t₂ := hp.mem_iff.mp (List.mem_cons_self a t₁)
        have hbt₁ : b ∈ t₁ := by
          rcases List.mem_cons.mp hbmem with h | h
          · exact absurd h.symm hne
          · exact h
        have hat₂ : a ∈ t₂ := by
          rcases List.mem_cons.mp hamem with h | h
          · exact absurd h hne
          · exact h
        have h1 : gateIdLe a b := List.rel_of_sorted_cons hs₁ b hbt₁
        have h2 : gateIdLe b a := List.rel_of_sorted_cons hs₂ a hat₂
        have hdata : a.id.data = b.id.data := le_antisymm h1 h2
        have hid : a.id = b.id := congrArg String.mk hdata
        have hmem : a.id ∈ t₁.map GateRef.id := List.mem_map.mpr ⟨b, hbt₁, hid.symm⟩
        exact (List.nodup_cons.mp (by simpa using hnd)).1 hmem
      subst hab
      congr 1
      exact ih t₂ hp.cons_inv hs₁.of_cons hs₂.of_cons
        (List.nodup_cons.mp (by simpa using hnd)).2

/-- Sorting by gate identifier is invariant under the iteration order of
the backing set, provided the identifiers are pairwise distinct. -/
theorem sortGatesById_perm_inv (l₁ l₂ : List GateRef) (hp : l₁.Perm l₂)
    (hnd : (l₁.map GateRef.id).Nodup) :
    sortGatesById l₁ = sortGatesById l₂ := by
  apply sorted_gates_unique
  · exact (List.perm_insertionSort gateIdLe l₁).trans
      (hp.trans (List.perm_insertionSort gateIdLe l₂).symm)
  · exact List.sorted_insertionSort gateIdLe l₁
  · exact List.sorted_insertionSort gateIdLe l₂
  · have hpm : ((sortGatesById l₁).map GateRef.id).Perm (l₁.map GateRef.id) :=
      (List.perm_insertionSort gateIdLe l₁).map _
    exact hpm.nodup_iff.mpr hnd

/-- C5: before the tree encoding (and every other protocol-relevant
output) the distinct gate types are put into a deterministic order,
sorted by the stable gate identifier string; the encoding is a function
of the gate set alone — two arbitrary hash-set iteration orders of the
same gates yield the same sorted list and the same encoding, so
iteration order never determines the encoding. -/
theorem gate_ordering_deterministic (l₁ l₂ : List GateRef)
    (hp : l₁.Perm l₂) (hnd : (l₁.map GateRef.id).Nodup) :
    gateTreeEncoding l₁ = gateTreeEncoding l₂ ∧
    sortGatesById l₁ = sortGatesById l₂ ∧
    List.Sorted gateIdLe (sortGatesById l₁) ∧
    (sortGatesById l₁).Perm l₁ := by
  have hs := sortGatesById_perm_inv l₁ l₂ hp hnd
  exact ⟨by rw [gateTreeEncoding, gateTreeEncoding, hs], hs,
    List.sorted_insertionSort gateIdLe l₁, List.perm_insertionSort gateIdLe l₁⟩

/-- Witness for C5 on two iteration orders of a two-gate set. -/
theorem gate_ordering_deterministic_witness :
    gatesOrderOne.Perm gatesOrderTwo ∧
    (gatesOrderOne.map GateRef.id).Nodup ∧
    (gateTreeEncoding gatesOrderOne = gateTreeEncoding gatesOrderTwo ∧
      sortGatesById gatesOrderOne = sortGatesById gatesOrderTwo ∧
      List.Sorted gateIdLe (sortGatesById gatesOrderOne) ∧
      (sortGatesById gatesOrderOne).Perm gatesOrderOne) :=
  ⟨by decide, by decide,
    gate_ordering_deterministic gatesOrderOne gatesOrderTwo (by decide) (by decide)⟩

/-- C2: compilation is deterministic. Two runs of the pipeline over the
same circuit description — same configuration, same gate rows, same gate
set (up to the arbitrary iteration order of the backing `HashSet`), the
same external collaborators — produce identical `CommonCircuitData`
(degree, gate encoding, quotient factor, coset shifts, digest) and an
identical commitment cap. The hash-set order is the only run-to-run
nondeterminism in the pipeline, and the sort by gate identifier removes
it. -/
theorem build_deterministic (ext : ExternalFns) (cfg : CircuitConfig)
    (rows blinding : List GateRow) (l₁ l₂ : List GateRef) (nvt : Nat)
    (hp : l₁.Perm l₂) (hnd : (l₁.map GateRef.id).Nodup) :
    buildCircuit ext cfg rows blinding l₁ nvt =
      buildCircuit ext cfg rows blinding l₂ nvt := by
  have hs := sortGatesById_perm_inv l₁ l₂ hp hnd
  simp only [buildCircuit, gateTreeEncoding, hs]

/-- Witness for C2 on two iteration orders of a two-gate set, with
concrete external collaborators. -/
theorem build_deterministic_witness :
    gatesOrderOne.Perm gatesOrderTwo ∧
    (gatesOrderOne.map GateRef.id).Nodup ∧
    buildCircuit extSample cfgGood [] [] gatesOrderOne 0 =
      buildCircuit extSample cfgGood [] [] gatesOrderTwo 0 :=
  ⟨by decide, by decide,
    build_deterministic extSample cfgGood [] [] gatesOrderOne gatesOrderTwo 0
      (by decide) (by decide)⟩

/-- C6: after blinding-and-padding (the degree and its exact log are
fixed) and before any commitment is computed, the pipeline checks the
FRI reduction schedule's total arity against `degree_bits`; when
`total_arities > degree_bits` compilation aborts — no circuit data and no
cap are produced. -/
theorem fri_arity_check_fatal (ext : ExternalFns) (cfg : CircuitConfig)
    (rows blinding : List GateRow) (l : List GateRef) (nvt : Nat)
    (h : padExp (rows.length + blinding.length) <
      ext.total_arities (padExp (rows.length + blinding.length))) :
    buildCircuit ext cfg rows blinding l nvt = none := by
  have hdb : log2_strict ((blind_and_pad rows blinding).length) =
      some (padExp (rows.length + blinding.length)) := by
    rw [blind_and_pad_length]
    exact log2_strict_pow _
  simp only [buildCircuit, hdb]
  rw [if_neg (Nat.not_le_of_lt h)]

/-- Witness for C6: a schedule whose total arity always exceeds
`degree_bits` by one aborts the concrete compilation. -/
theorem fri_arity_check_fatal_witness :
    padExp (List.length ([] : List GateRow) + List.length ([] : List GateRow)) <
      extArity.total_arities
        (padExp (List.length ([] : List GateRow) + List.length ([] : List GateRow))) ∧
    buildCircuit extArity cfgGood [] [] gatesOrderOne 0 = none :=
  ⟨by decide, fri_arity_check_fatal extArity cfgGood [] [] gatesOrderOne 0 (by decide)⟩
